import Mathlib

/-!
Verification of the upload core of `nodejs-skynet` against its specification.

The definitions below are a shallow embedding of `src/upload.js`,
`src/defaults.js` and `src/client.js`.  Byte counts and indices are
modelled as `Nat` (all relevant JavaScript numbers are non-negative
integers in the claimed domains); option values that may be fractional
are modelled as `Rat`; fallible functions return `Except SkynetError`.
Helpers that live in `utils.js` / `utils_validation.js` (files that are
not part of the sources in scope) are modelled from the specification
and marked as such in their doc comments.
-/

namespace NodejsSkynet

/-- Error taxonomy of the specification: `invalidArgument` is raised by the
validation helpers (carrying the offending parameter name), `malformedSkylink`
by the skylink codec, and `uploadUrlNotSet` by the large-upload success
handler when the resumable upload exposes no resulting location. -/
inductive SkynetError where
  | invalidArgument (name : String)
  | malformedSkylink
  | uploadUrlNotSet
  deriving DecidableEq

/-- Modelled from the spec: `throwValidationError` (defined in
`utils_validation.js`, which is not among the sources) aborts with an
`InvalidArgument` failure naming the offending parameter. -/
def validationError (name : String) : SkynetError := .invalidArgument name

/-- One half-open byte range `{start, end}` as produced by
`splitSizeIntoChunkAlignedParts` in `src/upload.js`. -/
structure Part where
  start : Nat
  «end» : Nat
  deriving DecidableEq

/-- The length in bytes of a part (its half-open range). -/
def Part.len (p : Part) : Nat := p.«end» - p.start

/-- The `partSizes` array of `src/upload.js` lines 177-184 after the
round-robin loop: starting from `partCount` zeroes, each full chunk `i`
in `[0, numFullChunks)` adds `chunkSize` to entry `i % partCount`. -/
def partSizesAfterChunks (partCount chunkSize numFullChunks : Nat) : List Nat :=
  (List.range numFullChunks).foldl
    (fun sizes i => sizes.set (i % partCount) (sizes.getD (i % partCount) 0 + chunkSize))
    (List.replicate partCount 0)

/-- The leftover assignment of `src/upload.js` lines 186-196: when
`totalSize % chunkSize` is positive it is added to the entry at index
`min(numFullChunks, partCount - 1)`. -/
def partSizesWithLeftover (totalSize partCount chunkSize : Nat) : List Nat :=
  if 0 < totalSize % chunkSize then
    (partSizesAfterChunks partCount chunkSize (totalSize / chunkSize)).set
      (min (totalSize / chunkSize) (partCount - 1))
      ((partSizesAfterChunks partCount chunkSize (totalSize / chunkSize)).getD
        (min (totalSize / chunkSize) (partCount - 1)) 0 + totalSize % chunkSize)
  else
    partSizesAfterChunks partCount chunkSize (totalSize / chunkSize)

/-- The size-to-range conversion loop of `src/upload.js` lines 198-207:
walk the sizes keeping a running boundary `lastBoundary`. -/
def sizesToPartsAux : Nat → List Nat → List Part
  | _, [] => []
  | boundary, s :: rest => ⟨boundary, boundary + s⟩ :: sizesToPartsAux (boundary + s) rest

/-- Convert part sizes into `{start, end}` ranges, starting at boundary 0
(`src/upload.js` lines 198-207). -/
def sizesToParts (sizes : List Nat) : List Part := sizesToPartsAux 0 sizes

/-- Embedding of `splitSizeIntoChunkAlignedParts` (`src/upload.js` lines
164-210): validation guards in source order, then the round-robin chunk
assignment, the leftover assignment, and the conversion to ranges. -/
def splitSizeIntoChunkAlignedParts (totalSize partCount chunkSize : Nat) :
    Except SkynetError (List Part) :=
  if partCount < 1 then .error (validationError "partCount")
  else if chunkSize < 1 then .error (validationError "chunkSize")
  else if totalSize ≤ chunkSize then .error (validationError "totalSize")
  else .ok (sizesToParts (partSizesWithLeftover totalSize partCount chunkSize))

example : splitSizeIntoChunkAlignedParts 150 2 100 = .ok [⟨0, 100⟩, ⟨100, 150⟩] := by rfl
example : splitSizeIntoChunkAlignedParts 1 1 1 = .error (validationError "totalSize") := by rfl
example : splitSizeIntoChunkAlignedParts 5 2 1 = .ok [⟨0, 3⟩, ⟨3, 5⟩] := by rfl
example : splitSizeIntoChunkAlignedParts 3 3 2 = .ok [⟨0, 2⟩, ⟨2, 3⟩, ⟨3, 3⟩] := by rfl

/-! Helper lemmas about `List.set`, `List.getD` and the loops above. -/

theorem getD_set_self (l : List Nat) (i v : Nat) (h : i < l.length) :
    (l.set i v).getD i 0 = v := by
  induction l generalizing i with
  | nil => simp at h
  | cons a t ih =>
    cases i with
    | zero => simp [List.set, List.getD]
    | succ j =>
      simp only [List.set, List.getD_cons_succ]
      exact ih j (by simpa using h)

theorem getD_set_ne (l : List Nat) (i v j : Nat) (hne : i ≠ j) :
    (l.set i v).getD j 0 = l.getD j 0 := by
  induction l generalizing i j with
  | nil => simp [List.set]
  | cons a t ih =>
    cases i with
    | zero =>
      cases j with
      | zero => exact absurd rfl hne
      | succ k => simp [List.set]
    | succ i' =>
      cases j with
      | zero => simp [List.set]
      | succ k =>
        simp only [List.set, List.getD_cons_succ]
        exact ih i' k (fun h => hne (by omega))

theorem sum_set_add (l : List Nat) (i v : Nat) (h : i < l.length) :
    (l.set i (l.getD i 0 + v)).sum = l.sum + v := by
  induction l generalizing i with
  | nil => simp at h
  | cons a t ih =>
    cases i with
    | zero => simp [List.set, List.getD]; omega
    | succ j =>
      simp only [List.set, List.getD_cons_succ, List.sum_cons]
      have := ih j (by simpa using h)
      omega

theorem length_partSizesAfterChunks (p c n : Nat) :
    (partSizesAfterChunks p c n).length = p := by
  induction n with
  | zero => simp [partSizesAfterChunks]
  | succ k ih =>
    unfold partSizesAfterChunks at *
    rw [List.range_succ, List.foldl_append]
    simpa using ih

theorem partSizesAfterChunks_succ (p c n : Nat) :
    partSizesAfterChunks p c (n + 1) =
      (partSizesAfterChunks p c n).set (n % p)
        ((partSizesAfterChunks p c n).getD (n % p) 0 + c) := by
  unfold partSizesAfterChunks
  rw [List.range_succ, List.foldl_append]
  simp

theorem sum_partSizesAfterChunks (p c n : Nat) (hp : 0 < p) :
    (partSizesAfterChunks p c n).sum = n * c := by
  induction n with
  | zero => simp [partSizesAfterChunks]
  | succ k ih =>
    rw [partSizesAfterChunks_succ]
    rw [sum_set_add _ _ _ (by rw [length_partSizesAfterChunks]; exact Nat.mod_lt _ hp)]
    rw [ih]; ring

theorem getD_partSizesAfterChunks (p c n j : Nat) (hp : 0 < p) :
    (partSizesAfterChunks p c n).getD j 0 =
      c * ((List.range n).filter (fun i => i % p == j)).length := by
  induction n with
  | zero => simp [partSizesAfterChunks]
  | succ k ih =>
    rw [partSizesAfterChunks_succ]
    rw [List.range_succ, List.filter_append]
    by_cases hj : k % p = j
    · subst hj
      rw [getD_set_self _ _ _ (by rw [length_partSizesAfterChunks]; exact Nat.mod_lt _ hp)]
      rw [ih]
      simp only [List.filter_cons, beq_self_eq_true, if_true, List.filter_nil,
        List.length_append, List.length_cons, List.length_nil]
      ring
    · rw [getD_set_ne _ _ _ _ hj, ih]
      simp [List.filter_cons, List.filter_nil, hj]

instance exceptDecEq {ε α : Type} [DecidableEq ε] [DecidableEq α] :
    DecidableEq (Except ε α) := fun a b =>
  match a, b with
  | .error e, .error f =>
    if h : e = f then .isTrue (congrArg Except.error h)
    else .isFalse (fun hh => h (Except.error.inj hh))
  | .error e, .ok y => .isFalse (fun hh => Except.noConfusion hh)
  | .ok x, .error f => .isFalse (fun hh => Except.noConfusion hh)
  | .ok x, .ok y =>
    if h : x = y then .isTrue (congrArg Except.ok h)
    else .isFalse (fun hh => h (Except.ok.inj hh))

theorem exceptIsOk_error {ε α : Type} (e : ε) :
    (Except.error e : Except ε α).isOk = false := rfl

theorem exceptIsOk_ok {ε α : Type} (a : α) :
    (Except.ok a : Except ε α).isOk = true := rfl

theorem map_getD_range {β : Type} (f : Nat → β) (n j : Nat) (d : β) (h : j < n) :
    ((List.range n).map f).getD j d = f j := by
  show (((List.range n).map f).get? j).getD d = f j
  rw [List.get?_map, List.get?_range h]
  rfl

theorem ext_getD {α : Type} (d : α) :
    ∀ l₁ l₂ : List α, l₁.length = l₂.length →
      (∀ j, j < l₁.length → l₁.getD j d = l₂.getD j d) → l₁ = l₂ := by
  intro l₁
  induction l₁ with
  | nil =>
    intro l₂ h _
    cases l₂ with
    | nil => rfl
    | cons b u => simp at h
  | cons a t ih =>
    intro l₂ h hj
    cases l₂ with
    | nil => simp at h
    | cons b u =>
      have h0 : a = b := hj 0 (by simp)
      have ht : t = u :=
        ih u (by simpa using h) (fun j hjj => hj (j + 1) (by simpa using hjj))
      rw [h0, ht]

theorem getD_map_part (f : Part → Nat) (l : List Part) (j : Nat) (hf : f ⟨0, 0⟩ = 0) :
    (l.map f).getD j 0 = f (l.getD j ⟨0, 0⟩) := by
  induction l generalizing j with
  | nil => simp [List.getD, hf]
  | cons a t ih =>
    cases j with
    | zero => simp [List.getD]
    | succ k => simpa using ih k

theorem length_partSizesWithLeftover (t p c : Nat) :
    (partSizesWithLeftover t p c).length = p := by
  unfold partSizesWithLeftover
  split
  · rw [List.length_set, length_partSizesAfterChunks]
  · exact length_partSizesAfterChunks p c (t / c)

theorem sum_partSizesWithLeftover (t p c : Nat) (hp : 0 < p) (hc : 0 < c) :
    (partSizesWithLeftover t p c).sum = t := by
  unfold partSizesWithLeftover
  split
  · rename_i h
    rw [sum_set_add _ _ _ ?hidx]
    case hidx =>
      rw [length_partSizesAfterChunks]
      have := Nat.min_le_right (t / c) (p - 1)
      omega
    rw [sum_partSizesAfterChunks _ _ _ hp, Nat.mul_comm]
    exact Nat.div_add_mod t c
  · rename_i h
    rw [sum_partSizesAfterChunks _ _ _ hp, Nat.mul_comm]
    have hmod : t % c = 0 := by omega
    have := Nat.div_add_mod t c
    omega

theorem getD_partSizesWithLeftover (t p c j : Nat) (hp : 0 < p) :
    (partSizesWithLeftover t p c).getD j 0 =
      c * ((List.range (t / c)).filter (fun i => i % p == j)).length +
        (if 0 < t % c ∧ j = min (t / c) (p - 1) then t % c else 0) := by
  unfold partSizesWithLeftover
  split
  · rename_i h
    by_cases hj : j = min (t / c) (p - 1)
    · subst hj
      rw [getD_set_self _ _ _ ?hidx]
      case hidx =>
        rw [length_partSizesAfterChunks]
        have := Nat.min_le_right (t / c) (p - 1)
        omega
      rw [getD_partSizesAfterChunks _ _ _ _ hp]
      simp [h]
    · rw [getD_set_ne _ _ _ _ (fun hh => hj hh.symm)]
      rw [getD_partSizesAfterChunks _ _ _ _ hp]
      simp [hj]
  · rename_i h
    rw [getD_partSizesAfterChunks _ _ _ _ hp]
    have : ¬ (0 < t % c) := h
    simp [this]

theorem length_sizesToPartsAux (s : List Nat) (b : Nat) :
    (sizesToPartsAux b s).length = s.length := by
  induction s generalizing b with
  | nil => rfl
  | cons a t ih => simp [sizesToPartsAux, ih]

theorem map_len_sizesToPartsAux (s : List Nat) (b : Nat) :
    (sizesToPartsAux b s).map Part.len = s := by
  induction s generalizing b with
  | nil => rfl
  | cons a t ih => simp [sizesToPartsAux, Part.len, ih]

theorem getD_sizesToPartsAux (s : List Nat) (b i : Nat) (h : i < s.length) :
    (sizesToPartsAux b s).getD i ⟨0, 0⟩ =
      ⟨b + (s.take i).sum, b + (s.take (i + 1)).sum⟩ := by
  induction s generalizing b i with
  | nil => simp at h
  | cons a t ih =>
    cases i with
    | zero => simp [sizesToPartsAux, List.getD]
    | succ k =>
      simp only [sizesToPartsAux, List.getD_cons_succ]
      rw [ih _ _ (by simpa using h)]
      simp only [List.take_succ_cons, List.sum_cons, Part.mk.injEq]
      constructor <;> omega

theorem splitSize_ok_eq (t p c : Nat) (hp : 1 ≤ p) (hc : 1 ≤ c) (ht : c < t) :
    splitSizeIntoChunkAlignedParts t p c =
      .ok (sizesToParts (partSizesWithLeftover t p c)) := by
  unfold splitSizeIntoChunkAlignedParts
  have h1 : ¬ p < 1 := by omega
  have h2 : ¬ c < 1 := by omega
  have h3 : ¬ t ≤ c := by omega
  simp [h1, h2, h3]

/-- C1: for `totalSize ≥ 1`, `partCount ≥ 1`, `chunkSize ≥ 1` with
`totalSize > chunkSize`, any partition returned by
`splitSizeIntoChunkAlignedParts` has exactly `partCount` parts, the first
part starts at 0, consecutive parts are contiguous (the end of each part is
the start of the next) and increasing (start ≤ end), the part lengths sum to
`totalSize`, and the last part ends at `totalSize`. -/
theorem splitSize_partition_invariants (totalSize partCount chunkSize : Nat)
    (parts : List Part)
    (htot : 1 ≤ totalSize) (hp : 1 ≤ partCount) (hc : 1 ≤ chunkSize)
    (ht : chunkSize < totalSize)
    (hparts : splitSizeIntoChunkAlignedParts totalSize partCount chunkSize = .ok parts) :
    parts.length = partCount ∧
    (parts.getD 0 ⟨0, 0⟩).start = 0 ∧
    (∀ i, i + 1 < parts.length →
      (parts.getD i ⟨0, 0⟩).«end» = (parts.getD (i + 1) ⟨0, 0⟩).start) ∧
    (∀ i, i < parts.length →
      (parts.getD i ⟨0, 0⟩).start ≤ (parts.getD i ⟨0, 0⟩).«end») ∧
    (parts.map Part.len).sum = totalSize ∧
    (parts.getD (parts.length - 1) ⟨0, 0⟩).«end» = totalSize := by
  rw [splitSize_ok_eq totalSize partCount chunkSize hp hc ht] at hparts
  have hparts' : parts = sizesToParts (partSizesWithLeftover totalSize partCount chunkSize) :=
    (Except.ok.inj hparts).symm
  subst hparts'
  have hplen : (partSizesWithLeftover totalSize partCount chunkSize).length = partCount :=
    length_partSizesWithLeftover totalSize partCount chunkSize
  have hsum : (partSizesWithLeftover totalSize partCount chunkSize).sum = totalSize :=
    sum_partSizesWithLeftover totalSize partCount chunkSize (by omega) (by omega)
  set s := partSizesWithLeftover totalSize partCount chunkSize with hs
  have hlen : (sizesToParts s).length = s.length := length_sizesToPartsAux s 0
  refine ⟨by rw [hlen, hplen], ?_, ?_, ?_, ?_, ?_⟩
  · rw [sizesToParts, getD_sizesToPartsAux s 0 0 (by omega)]
    simp
  · intro i hi
    rw [hlen] at hi
    rw [sizesToParts, getD_sizesToPartsAux s 0 i (by omega),
      getD_sizesToPartsAux s 0 (i + 1) (by omega)]
  · intro i hi
    rw [hlen] at hi
    rw [sizesToParts, getD_sizesToPartsAux s 0 i (by omega)]
    dsimp only
    have h1 : (s.take (i + 1)).sum = (s.take i).sum + s.get ⟨i, by omega⟩ :=
      List.sum_take_succ s i (by omega)
    omega
  · rw [sizesToParts, map_len_sizesToPartsAux s 0, hsum]
  · rw [hlen, hplen, sizesToParts, getD_sizesToPartsAux s 0 (partCount - 1) (by omega)]
    dsimp only
    have htake : s.take ((partCount - 1) + 1) = s := by
      have heq : (partCount - 1) + 1 = s.length := by omega
      rw [heq, List.take_length]
    rw [htake, hsum]
    omega

theorem splitSize_partition_invariants_witness :
    ([(⟨0, 100⟩ : Part), ⟨100, 150⟩].map Part.len).sum = 150 :=
  (splitSize_partition_invariants 150 2 100 [⟨0, 100⟩, ⟨100, 150⟩]
    (by decide) (by decide) (by decide) (by decide) (by rfl)).2.2.2.2.1

/-- C2: whenever `splitSizeIntoChunkAlignedParts` succeeds on
`totalSize > chunkSize ≥ 1` and `partCount ≥ 1`, there is an index `k` such
that every part other than part `k` has a length that is an exact multiple of
`chunkSize` (so at most one part is not an exact multiple). -/
theorem splitSize_at_most_one_unaligned (totalSize partCount chunkSize : Nat)
    (parts : List Part)
    (hp : 1 ≤ partCount) (hc : 1 ≤ chunkSize) (ht : chunkSize < totalSize)
    (hparts : splitSizeIntoChunkAlignedParts totalSize partCount chunkSize = .ok parts) :
    ∃ k, k < parts.length ∧
      ∀ j, j < parts.length → j ≠ k → chunkSize ∣ (parts.getD j ⟨0, 0⟩).len := by
  rw [splitSize_ok_eq totalSize partCount chunkSize hp hc ht] at hparts
  have hparts' : parts = sizesToParts (partSizesWithLeftover totalSize partCount chunkSize) :=
    (Except.ok.inj hparts).symm
  subst hparts'
  set s := partSizesWithLeftover totalSize partCount chunkSize with hs
  have hplen : s.length = partCount := length_partSizesWithLeftover totalSize partCount chunkSize
  have hlen : (sizesToParts s).length = s.length := length_sizesToPartsAux s 0
  refine ⟨min (totalSize / chunkSize) (partCount - 1), ?_, ?_⟩
  · rw [hlen, hplen]
    have := Nat.min_le_right (totalSize / chunkSize) (partCount - 1)
    omega
  · intro j hj hjk
    rw [hlen, hplen] at hj
    have hlen_map : ((sizesToParts s).map Part.len).getD j 0
        = Part.len ((sizesToParts s).getD j ⟨0, 0⟩) := getD_map_part Part.len _ j rfl
    rw [sizesToParts, map_len_sizesToPartsAux s 0] at hlen_map
    show chunkSize ∣ Part.len ((sizesToParts s).getD j ⟨0, 0⟩)
    rw [sizesToParts]
    rw [← hlen_map, hs, getD_partSizesWithLeftover totalSize partCount chunkSize j (by omega)]
    simp only [hjk, and_false, if_false, Nat.add_zero]
    exact dvd_mul_right chunkSize _

theorem splitSize_at_most_one_unaligned_witness :
    ∃ k, k < ([(⟨0, 100⟩ : Part), ⟨100, 150⟩] : List Part).length ∧
      ∀ j, j < ([(⟨0, 100⟩ : Part), ⟨100, 150⟩] : List Part).length → j ≠ k →
        100 ∣ (([(⟨0, 100⟩ : Part), ⟨100, 150⟩] : List Part).getD j ⟨0, 0⟩).len :=
  splitSize_at_most_one_unaligned 150 2 100 [⟨0, 100⟩, ⟨100, 150⟩]
    (by decide) (by decide) (by decide) (by rfl)

/-- Part sizes exactly as the specification words the algorithm: with
`fullChunks = floor(totalSize / chunkSize)`, part `j` receives `chunkSize`
once for every `i` in `[0, fullChunks)` with `i mod partCount = j`, plus the
leftover `totalSize mod chunkSize` (when positive) at index
`min(fullChunks, partCount - 1)`.  This definition follows the wording of the
claim, to be compared with the embedding of the source. -/
def specPartSizes (totalSize partCount chunkSize : Nat) : List Nat :=
  (List.range partCount).map (fun j =>
    chunkSize * ((List.range (totalSize / chunkSize)).filter (fun i => i % partCount == j)).length +
      (if 0 < totalSize % chunkSize ∧ j = min (totalSize / chunkSize) (partCount - 1)
        then totalSize % chunkSize else 0))

/-- Ranges obtained from `specPartSizes` by cumulative offsets from 0, as the
specification words the conversion. -/
def specChunkAlignedParts (totalSize partCount chunkSize : Nat) : List Part :=
  (List.range partCount).map (fun j =>
    ⟨((specPartSizes totalSize partCount chunkSize).take j).sum,
     ((specPartSizes totalSize partCount chunkSize).take (j + 1)).sum⟩)

theorem partSizes_eq_spec (t p c : Nat) (hp : 0 < p) :
    partSizesWithLeftover t p c = specPartSizes t p c := by
  apply ext_getD 0
  · rw [length_partSizesWithLeftover]
    simp [specPartSizes]
  · intro j hj
    rw [length_partSizesWithLeftover] at hj
    rw [getD_partSizesWithLeftover t p c j hp]
    unfold specPartSizes
    rw [map_getD_range _ p j 0 hj]

theorem sizesToParts_eq_ranges (s : List Nat) :
    sizesToParts s =
      (List.range s.length).map (fun j => ⟨(s.take j).sum, (s.take (j + 1)).sum⟩) := by
  apply ext_getD (⟨0, 0⟩ : Part)
  · rw [sizesToParts, length_sizesToPartsAux]
    simp
  · intro j hj
    rw [sizesToParts, length_sizesToPartsAux] at hj
    rw [sizesToParts, getD_sizesToPartsAux s 0 j hj, map_getD_range _ s.length j _ hj]
    simp

/-- C3: `splitSizeIntoChunkAlignedParts` computes exactly the algorithm the
specification describes (round-robin whole chunks, leftover at
`min(fullChunks, partCount - 1)`, cumulative offsets), and the worked example
`totalSize=150, chunkSize=100, partCount=2` yields `[(0,100), (100,150)]`. -/
theorem splitSize_follows_spec_algorithm :
    (∀ totalSize partCount chunkSize : Nat,
      1 ≤ partCount → 1 ≤ chunkSize → chunkSize < totalSize →
      splitSizeIntoChunkAlignedParts totalSize partCount chunkSize =
        .ok (specChunkAlignedParts totalSize partCount chunkSize)) ∧
    splitSizeIntoChunkAlignedParts 150 2 100 = .ok [⟨0, 100⟩, ⟨100, 150⟩] := by
  constructor
  · intro t p c hp hc ht
    rw [splitSize_ok_eq t p c hp hc ht]
    rw [partSizes_eq_spec t p c (by omega), sizesToParts_eq_ranges]
    unfold specChunkAlignedParts
    have hlen : (specPartSizes t p c).length = p := by simp [specPartSizes]
    rw [hlen]
  · rfl

theorem splitSize_follows_spec_algorithm_witness :
    splitSizeIntoChunkAlignedParts 150 2 100 = .ok (specChunkAlignedParts 150 2 100) :=
  splitSize_follows_spec_algorithm.1 150 2 100 (by decide) (by decide) (by decide)

/-- C4 counterexample: the claim asserts that `partCount == 1` always succeeds
for any `totalSize ≥ 1`, `chunkSize ≥ 1`, but the source guards
`totalSize <= chunkSize` unconditionally, so `totalSize = 1, chunkSize = 1,
partCount = 1` fails. -/
theorem splitSize_partCount_one_cex :
    (splitSizeIntoChunkAlignedParts 1 1 1).isOk = false := by rfl

/-- C4 amended: `splitSizeIntoChunkAlignedParts` fails if and only if
`partCount < 1`, or `chunkSize < 1`, or `totalSize ≤ chunkSize` (with no
`partCount > 1` proviso on the last condition); in particular with
`partCount = 1` it succeeds exactly when `totalSize > chunkSize ≥ 1`, and then
returns the single part `[0, totalSize)`. -/
theorem splitSize_error_iff (totalSize partCount chunkSize : Nat) :
    ((splitSizeIntoChunkAlignedParts totalSize partCount chunkSize).isOk = false ↔
      (partCount < 1 ∨ chunkSize < 1 ∨ totalSize ≤ chunkSize)) ∧
    (1 ≤ chunkSize → chunkSize < totalSize →
      splitSizeIntoChunkAlignedParts totalSize 1 chunkSize = .ok [⟨0, totalSize⟩]) := by
  constructor
  · unfold splitSizeIntoChunkAlignedParts
    by_cases h1 : partCount < 1
    · simp only [if_pos h1, exceptIsOk_error]
      simp [h1]
    · by_cases h2 : chunkSize < 1
      · simp only [if_neg h1, if_pos h2, exceptIsOk_error]
        simp [h1, h2]
      · by_cases h3 : totalSize ≤ chunkSize
        · simp only [if_neg h1, if_neg h2, if_pos h3, exceptIsOk_error]
          simp [h1, h2, h3]
        · simp only [if_neg h1, if_neg h2, if_neg h3, exceptIsOk_ok]
          simp [h1, h2, h3]
  · intro hc ht
    rw [splitSize_ok_eq totalSize 1 chunkSize (by omega) hc ht]
    have hsizes : partSizesWithLeftover totalSize 1 chunkSize = [totalSize] := by
      apply ext_getD 0
      · rw [length_partSizesWithLeftover]
        rfl
      · intro j hj
        rw [length_partSizesWithLeftover] at hj
        have hj0 : j = 0 := by omega
        subst hj0
        rw [getD_partSizesWithLeftover totalSize 1 chunkSize 0 (by omega)]
        have hfilter : (List.range (totalSize / chunkSize)).filter
            (fun i => i % 1 == 0) = List.range (totalSize / chunkSize) := by
          apply List.filter_eq_self.mpr
          intro a _
          simp [Nat.mod_one]
        rw [hfilter]
        have hdm := Nat.div_add_mod totalSize chunkSize
        simp only [List.length_range, Nat.sub_self, Nat.min_zero, List.getD, List.get?,
          Option.getD_some]
        by_cases hmod : 0 < totalSize % chunkSize
        · simp [hmod]
          omega
        · simp [hmod]
          omega
    rw [hsizes]
    show Except.ok (sizesToParts [totalSize]) =
      Except.ok ([⟨0, totalSize⟩] : List Part)
    have hone : sizesToParts [totalSize] = [⟨0, 0 + totalSize⟩] := rfl
    rw [hone]
    simp

theorem splitSize_error_iff_witness :
    splitSizeIntoChunkAlignedParts 150 1 100 = .ok [⟨0, 150⟩] :=
  (splitSize_error_iff 150 1 100).2 (by decide) (by decide)

/-- The parallelism clamp of `uploadLargeFile` (`src/upload.js` lines 104-110):
`numChunks = Math.ceil(filesize / TUS_CHUNK_SIZE)` and
`if (parallelUploads > numChunks) parallelUploads = numChunks`.
`baseChunkSize` stands for `TUS_CHUNK_SIZE`, which `upload.js` imports from
`defaults.js` but whose numeric value is not among the sources; the
specification only constrains it to be a positive integer. -/
def clampedParallelUploads (filesize baseChunkSize numParallelUploads : Nat) : Nat :=
  if (filesize + baseChunkSize - 1) / baseChunkSize < numParallelUploads
  then (filesize + baseChunkSize - 1) / baseChunkSize
  else numParallelUploads

/-- The partition-planning portion of `uploadLargeFile` (`src/upload.js` lines
96-118): when the clamped parallelism exceeds 1, the `splitSizeIntoParts`
closure partitions `filesize` into that many parts with chunk size
`TUS_CHUNK_SIZE * chunkSizeMultiplier`; otherwise no partition is installed
(`.ok none`). -/
def largeUploadPartitionPlan
    (filesize baseChunkSize chunkSizeMultiplier numParallelUploads : Nat) :
    Except SkynetError (Option (List Part)) :=
  if 1 < clampedParallelUploads filesize baseChunkSize numParallelUploads then
    match splitSizeIntoChunkAlignedParts filesize
        (clampedParallelUploads filesize baseChunkSize numParallelUploads)
        (baseChunkSize * chunkSizeMultiplier) with
    | .ok parts => .ok (some parts)
    | .error e => .error e
  else .ok none

example : largeUploadPartitionPlan 3 1 2 3 = .ok (some [⟨0, 2⟩, ⟨2, 3⟩, ⟨3, 3⟩]) := by rfl
example : largeUploadPartitionPlan 5 1 1 2 = .ok (some [⟨0, 3⟩, ⟨3, 5⟩]) := by rfl

/-- C5 counterexample: with `filesize = 3`, `baseChunkSize = 1`,
`chunkSizeMultiplier = 2`, `numParallelUploads = 3` the clamp (computed from
the base chunk size) does not prevent empty parts for the effective chunk size
`2`, and the plan contains the zero-length part `(3, 3)`. -/
theorem largePlan_zero_part_cex :
    largeUploadPartitionPlan 3 1 2 3 = .ok (some [⟨0, 2⟩, ⟨2, 3⟩, ⟨3, 3⟩]) ∧
    Part.len ⟨3, 3⟩ = 0 := ⟨rfl, rfl⟩

/-- C5 amended: when `chunkSizeMultiplier = 1` (so the partition chunk size
coincides with the base chunk size used for the clamp), no part of the
resulting partition plan has zero length. -/
theorem largePlan_no_zero_parts_of_multiplier_one
    (filesize baseChunkSize numParallelUploads : Nat) (parts : List Part)
    (hf : 1 ≤ filesize) (hb : 1 ≤ baseChunkSize) (hn : 1 ≤ numParallelUploads)
    (hplan : largeUploadPartitionPlan filesize baseChunkSize 1 numParallelUploads =
      .ok (some parts)) :
    ∀ j, j < parts.length → 0 < (parts.getD j ⟨0, 0⟩).len := by
  intro j hj
  unfold largeUploadPartitionPlan at hplan
  rw [Nat.mul_one] at hplan
  set P := clampedParallelUploads filesize baseChunkSize numParallelUploads with hPdef
  by_cases hP : 1 < P
  · rw [if_pos hP] at hplan
    cases hsplit : splitSizeIntoChunkAlignedParts filesize P baseChunkSize with
    | error e =>
      rw [hsplit] at hplan
      simp at hplan
    | ok parts2 =>
      rw [hsplit] at hplan
      simp only [Except.ok.injEq, Option.some.injEq] at hplan
      subst hplan
      -- Unpack the successful split.
      unfold splitSizeIntoChunkAlignedParts at hsplit
      split_ifs at hsplit with g1 g2 g3
      have hparts2 : parts2 = sizesToParts (partSizesWithLeftover filesize P baseChunkSize) :=
        (Except.ok.inj hsplit).symm
      subst hparts2
      set s := partSizesWithLeftover filesize P baseChunkSize with hs
      have hplen : s.length = P := length_partSizesWithLeftover filesize P baseChunkSize
      have hlen : (sizesToParts s).length = s.length := length_sizesToPartsAux s 0
      rw [hlen, hplen] at hj
      -- Reduce the goal to positivity of the corresponding size entry.
      have hlen_map : ((sizesToParts s).map Part.len).getD j 0
          = Part.len ((sizesToParts s).getD j ⟨0, 0⟩) := getD_map_part Part.len _ j rfl
      rw [sizesToParts, map_len_sizesToPartsAux s 0] at hlen_map
      show 0 < Part.len ((sizesToParts s).getD j ⟨0, 0⟩)
      rw [sizesToParts]
      rw [← hlen_map, hs, getD_partSizesWithLeftover filesize P baseChunkSize j (by omega)]
      -- Arithmetic facts about the clamp.
      have hPN : P ≤ (filesize + baseChunkSize - 1) / baseChunkSize := by
        rw [hPdef]
        unfold clampedParallelUploads
        split <;> omega
      have hceil : (filesize + baseChunkSize) / baseChunkSize = filesize / baseChunkSize + 1 :=
        Nat.add_div_right filesize (by omega)
      have hNF1 : (filesize + baseChunkSize - 1) / baseChunkSize ≤ filesize / baseChunkSize + 1 := by
        have h1 : (filesize + baseChunkSize - 1) / baseChunkSize
            ≤ (filesize + baseChunkSize) / baseChunkSize :=
          Nat.div_le_div_right (by omega)
        omega
      by_cases hjF : j < filesize / baseChunkSize
      · -- part j receives at least one whole chunk
        have hmem : j ∈ (List.range (filesize / baseChunkSize)).filter
            (fun i => i % P == j) :=
          List.mem_filter.mpr ⟨List.mem_range.mpr hjF, by simp [Nat.mod_eq_of_lt hj]⟩
        have hpos : 0 < ((List.range (filesize / baseChunkSize)).filter
            (fun i => i % P == j)).length := List.length_pos_of_mem hmem
        have hmul : 0 < baseChunkSize * ((List.range (filesize / baseChunkSize)).filter
            (fun i => i % P == j)).length := Nat.mul_pos (by omega) hpos
        exact Nat.lt_of_lt_of_le hmul (Nat.le_add_right _ _)
      · -- j = filesize / baseChunkSize and the leftover lands on part j
        have hjeq : j = filesize / baseChunkSize := by omega
        have hpF1 : P = filesize / baseChunkSize + 1 := by omega
        have hmod : 0 < filesize % baseChunkSize := by
          by_contra hmod0
          have hdvd : filesize % baseChunkSize = 0 := by omega
          have hfs : filesize = baseChunkSize * (filesize / baseChunkSize) := by
            have := Nat.div_add_mod filesize baseChunkSize
            omega
          have hsplit1 : filesize + baseChunkSize - 1
              = baseChunkSize * (filesize / baseChunkSize) + (baseChunkSize - 1) := by omega
          have hN : (filesize + baseChunkSize - 1) / baseChunkSize = filesize / baseChunkSize := by
            rw [hsplit1, Nat.mul_add_div (by omega)]
            rw [Nat.div_eq_of_lt (show baseChunkSize - 1 < baseChunkSize by omega)]
            omega
          omega
        have hcond : (0 < filesize % baseChunkSize ∧
            j = min (filesize / baseChunkSize) (P - 1)) := by
          constructor
          · exact hmod
          · rw [hpF1]
            simp [hjeq]
        rw [if_pos hcond]
        exact Nat.lt_of_lt_of_le hmod (Nat.le_add_left _ _)
  · rw [if_neg hP] at hplan
    simp at hplan

theorem largePlan_no_zero_parts_witness :
    0 < (([(⟨0, 3⟩ : Part), ⟨3, 5⟩] : List Part).getD 0 ⟨0, 0⟩).len :=
  largePlan_no_zero_parts_of_multiplier_one 5 1 2 [⟨0, 3⟩, ⟨3, 5⟩]
    (by decide) (by decide) (by decide) (by rfl) 0 (by decide)

/-- The string length of the skylink after base64 encoding
(`src/defaults.js` line 59). -/
def BASE64_ENCODED_SKYLINK_SIZE : Nat := 46

/-- The raw size in bytes of the data that gets put into a link
(`src/defaults.js` line 64). -/
def RAW_SKYLINK_SIZE : Nat := 34

/-- Modelled from the spec: the value of a standard base64 alphabet
character, used by the standard base64 decoding that the specification
ascribes to the external `base64-js` dependency. -/
def base64CharValue (c : Char) : Option Nat :=
  if 'A' ≤ c ∧ c ≤ 'Z' then some (c.toNat - 65)
  else if 'a' ≤ c ∧ c ≤ 'z' then some (c.toNat - 97 + 26)
  else if '0' ≤ c ∧ c ≤ '9' then some (c.toNat - 48 + 52)
  else if c = '+' then some 62
  else if c = '/' then some 63
  else none

/-- Modelled from the spec: decode one four-character base64 quantum,
honouring terminal `=` padding (two padding characters yield one byte, one
yields two bytes, none yields three bytes). -/
def decodeBase64Quantum (a b c d : Char) : Option (List Nat) :=
  match base64CharValue a, base64CharValue b with
  | some va, some vb =>
    if c = '=' then
      if d = '=' then some [(va * 4 + vb / 16) % 256] else none
    else
      match base64CharValue c with
      | some vc =>
        if d = '=' then
          some [(va * 4 + vb / 16) % 256, (vb * 16 + vc / 4) % 256]
        else
          match base64CharValue d with
          | some vd =>
            some [(va * 4 + vb / 16) % 256, (vb * 16 + vc / 4) % 256, (vc * 64 + vd) % 256]
          | none => none
      | none => none
  | _, _ => none

/-- Modelled from the spec: standard base64 decoding of a character list in
four-character quanta; `=` padding may occur only in the final quantum. -/
def decodeBase64Chars : List Char → Option (List Nat)
  | [] => some []
  | a :: b :: c :: d :: rest =>
    if c = '=' ∨ d = '=' then
      if rest = [] then decodeBase64Quantum a b c d else none
    else
      match decodeBase64Quantum a b c d, decodeBase64Chars rest with
      | some first, some more => some (first ++ more)
      | _, _ => none
  | _ => none

/-- Modelled from the spec: `toByteArray` of the external `base64-js`
dependency performs standard base64 decoding and rejects strings whose length
is not a multiple of four. -/
def toByteArray (s : String) : Option (List Nat) :=
  if s.length % 4 = 0 then decodeBase64Chars s.data else none

/-- The URL-safe alphabet translation of `src/defaults.js` line 80: the two
global replaces turn every dash into a plus and then every underscore into a
slash, characterwise. -/
def translateUrlSafe (s : String) : String :=
  String.mk ((s.data.map (fun ch => if ch = '-' then '+' else ch)).map
    (fun ch => if ch = '_' then '/' else ch))

/-- Embedding of `decodeSkylinkBase64` (`src/defaults.js` lines 72-82): check
the 46-character length, append `"=="` padding, translate the URL-safe
alphabet, then base64-decode; a failing decode is a malformed skylink. -/
def decodeSkylinkBase64 (skylink : String) : Except SkynetError (List Nat) :=
  if skylink.length ≠ BASE64_ENCODED_SKYLINK_SIZE then .error .malformedSkylink
  else
    match toByteArray (translateUrlSafe (skylink ++ "==")) with
    | some bytes => .ok bytes
    | none => .error .malformedSkylink

example : decodeSkylinkBase64 "AAAAAAAAAAAAAAAAAAAAAAAAAAAAAAAAAAAAAAAAAAAAAA"
    = .ok (List.replicate 34 0) := by rfl
example : decodeSkylinkBase64 "short" = .error .malformedSkylink := by rfl

theorem decodeBase64Quantum_full_length (a b c d : Char) (bs : List Nat)
    (hc : c ≠ '=') (hd : d ≠ '=')
    (h : decodeBase64Quantum a b c d = some bs) : bs.length = 3 := by
  unfold decodeBase64Quantum at h
  cases ha : base64CharValue a with
  | none => rw [ha] at h; cases hb : base64CharValue b <;> simp [hb] at h
  | some va =>
    rw [ha] at h
    cases hb : base64CharValue b with
    | none => rw [hb] at h; simp at h
    | some vb =>
      rw [hb] at h
      simp only [if_neg hc] at h
      cases hcc : base64CharValue c with
      | none => rw [hcc] at h; simp at h
      | some vc =>
        rw [hcc] at h
        simp only [if_neg hd] at h
        cases hdd : base64CharValue d with
        | none => rw [hdd] at h; simp at h
        | some vd =>
          rw [hdd] at h
          simp only [Option.some.injEq] at h
          rw [← h]
          rfl

theorem decodeBase64Quantum_pad2_length (a b : Char) (bs : List Nat)
    (h : decodeBase64Quantum a b '=' '=' = some bs) : bs.length = 1 := by
  unfold decodeBase64Quantum at h
  cases ha : base64CharValue a with
  | none => rw [ha] at h; cases hb : base64CharValue b <;> simp [hb] at h
  | some va =>
    rw [ha] at h
    cases hb : base64CharValue b with
    | none => rw [hb] at h; simp at h
    | some vb =>
      rw [hb] at h
      simp at h
      subst h
      rfl

theorem decodeBase64Chars_padded_length :
    ∀ (n : Nat) (l : List Char) (a b : Char) (bytes : List Nat),
      l.length = 4 * n →
      decodeBase64Chars (l ++ [a, b, '=', '=']) = some bytes →
      bytes.length = 3 * n + 1 := by
  intro n
  induction n with
  | zero =>
    intro l a b bytes hlen h
    have hnil : l = [] := List.length_eq_zero.mp (by omega)
    subst hnil
    rw [List.nil_append] at h
    unfold decodeBase64Chars at h
    simp only [if_pos (by simp : ('=' : Char) = '=' ∨ ('=' : Char) = '='), if_pos rfl] at h
    simpa using decodeBase64Quantum_pad2_length a b bytes h
  | succ k ih =>
    intro l a b bytes hlen h
    match l, hlen with
    | x :: y :: z :: w :: l2, hlen =>
      have hl2 : l2.length = 4 * k := by
        simp only [List.length_cons] at hlen
        omega
      rw [List.cons_append, List.cons_append, List.cons_append, List.cons_append] at h
      unfold decodeBase64Chars at h
      by_cases hzw : z = '=' ∨ w = '='
      · rw [if_pos hzw] at h
        have : l2 ++ [a, b, '=', '='] ≠ [] := by simp
        rw [if_neg this] at h
        simp at h
      · rw [if_neg hzw] at h
        push_neg at hzw
        cases hq : decodeBase64Quantum x y z w with
        | none => rw [hq] at h; simp at h
        | some first =>
          rw [hq] at h
          cases hrest : decodeBase64Chars (l2 ++ [a, b, '=', '=']) with
          | none => rw [hrest] at h; simp at h
          | some more =>
            rw [hrest] at h
            simp only [Option.some.injEq] at h
            have h1 : first.length = 3 :=
              decodeBase64Quantum_full_length x y z w first hzw.1 hzw.2 hq
            have h2 : more.length = 3 * k + 1 := ih l2 a b more hl2 hrest
            rw [← h, List.length_append, h1, h2]
            ring

/-- C6: `decodeSkylinkBase64` fails with a malformed-skylink error for every
input whose length is not exactly 46 characters, and every successful decode
returns exactly 34 bytes. -/
theorem decodeSkylink_length_contract :
    (∀ s : String, s.length ≠ 46 → decodeSkylinkBase64 s = .error .malformedSkylink) ∧
    (∀ (s : String) (bytes : List Nat),
      decodeSkylinkBase64 s = .ok bytes → bytes.length = 34) := by
  constructor
  · intro s hlen
    unfold decodeSkylinkBase64
    rw [if_pos]
    exact hlen
  · intro s bytes h
    unfold decodeSkylinkBase64 at h
    by_cases hlen : s.length ≠ BASE64_ENCODED_SKYLINK_SIZE
    · rw [if_pos hlen] at h
      simp at h
    · rw [if_neg hlen] at h
      push_neg at hlen
      have hlen46 : s.data.length = 46 := hlen
      cases hdec : toByteArray (translateUrlSafe (s ++ "==")) with
      | none => rw [hdec] at h; simp at h
      | some bytes2 =>
        rw [hdec] at h
        simp only [Except.ok.injEq] at h
        subst h
        -- Structure of the translated, padded character list.
        unfold toByteArray at hdec
        have hdata : (translateUrlSafe (s ++ "==")).data
            = ((s.data.map (fun ch => if ch = '-' then '+' else ch)).map
                (fun ch => if ch = '_' then '/' else ch)) ++ ['=', '='] := by
          unfold translateUrlSafe
          rw [String.data_append]
          show ((s.data ++ ['=', '=']).map (fun ch => if ch = '-' then '+' else ch)).map
              (fun ch => if ch = '_' then '/' else ch) = _
          rw [List.map_append, List.map_append]
          rfl
        have htlen : (translateUrlSafe (s ++ "==")).length = 48 := by
          show (translateUrlSafe (s ++ "==")).data.length = 48
          rw [hdata]
          simp [hlen46]
        rw [if_pos (by rw [htlen])] at hdec
        set m := (s.data.map (fun ch => if ch = '-' then '+' else ch)).map
          (fun ch => if ch = '_' then '/' else ch) with hm
        have hmlen : m.length = 46 := by
          rw [hm]
          simp [hlen46]
        -- Split off the last two characters of the translated skylink.
        have htake : m.take 44 ++ m.drop 44 = m := List.take_append_drop 44 m
        have hdroplen : (m.drop 44).length = 2 := by
          rw [List.length_drop, hmlen]
        have htakelen : (m.take 44).length = 44 := by
          rw [List.length_take, hmlen]
          omega
        match hdrop : m.drop 44, hdroplen with
        | [a, b], _ =>
          have hsplit : m = m.take 44 ++ [a, b] := by rw [← hdrop, htake]
          rw [hdata, hsplit] at hdec
          have hassoc : (m.take 44 ++ [a, b]) ++ ['=', '=']
              = m.take 44 ++ [a, b, '=', '='] := by
            rw [List.append_assoc]
            rfl
          rw [hassoc] at hdec
          have := decodeBase64Chars_padded_length 11 (m.take 44) a b bytes2
            (by rw [htakelen]) hdec
          omega

theorem decodeSkylink_length_contract_witness :
    (decodeSkylinkBase64 "" = .error .malformedSkylink) ∧
    (List.replicate 34 (0 : Nat)).length = 34 :=
  ⟨decodeSkylink_length_contract.1 "" (by decide),
   decodeSkylink_length_contract.2 "AAAAAAAAAAAAAAAAAAAAAAAAAAAAAAAAAAAAAAAAAAAAAA"
     (List.replicate 34 0) (by rfl)⟩

/-- Modelled from the spec: `uriSkynetPrefix` from `utils.js` (not among the
sources) is the canonical URI scheme prefix `sia://` prepended to encoded
skylinks. -/
def uriSkynetPrefix : String := "sia://"

/-- JavaScript template-literal interpolation of a possibly-undefined value:
interpolating `undefined` produces the string `undefined`. -/
def jsInterpolate : Option String → String
  | some s => s
  | none => "undefined"

/-- Lookup of a response header by name (`resp.headers[...]`), `none` when the
header is absent (JavaScript `undefined`). -/
def lookupHeader (headers : List (String × String)) (key : String) : Option String :=
  (headers.find? (fun h => h.fst == key)).map Prod.snd

/-- The `onSuccess` handler of `uploadLargeFile` (`src/upload.js` lines
140-156) as a function of the resumable upload location (`upload.url`) and
the headers of the HEAD probe response: when `upload.url` is unset the
operation rejects; otherwise it resolves with the URI prefix interpolated
before the `skynet-skylink` response header.  The HEAD probe itself is
external transport; its response headers are the parameter. -/
def uploadLargeFileOnSuccess (uploadUrl : Option String)
    (probeHeaders : List (String × String)) : Except SkynetError String :=
  match uploadUrl with
  | none => .error .uploadUrlNotSet
  | some _ => .ok (uriSkynetPrefix ++ jsInterpolate (lookupHeader probeHeaders "skynet-skylink"))

/-- C7 counterexample: when the `skynet-skylink` header is absent from the
probe response, the operation does not fail: it resolves successfully with
the string `sia://undefined`. -/
theorem onSuccess_missing_header_resolves :
    (uploadLargeFileOnSuccess (some "upload-url") []).isOk = true ∧
    uploadLargeFileOnSuccess (some "upload-url") [] = .ok "sia://undefined" :=
  ⟨rfl, rfl⟩

/-- C7 amended: after all sessions complete the handler issues the HEAD probe
only when the resulting location of the upload (`upload.url`) is set, rejecting
otherwise; when the skylink metadata is absent from the probe response the
operation does not fail with an upload-incomplete error but resolves with the
URI prefix concatenated with the string `undefined`. -/
theorem onSuccess_behavior (u : String) (hdrs : List (String × String))
    (hmiss : lookupHeader hdrs "skynet-skylink" = none) :
    uploadLargeFileOnSuccess (some u) hdrs = .ok (uriSkynetPrefix ++ "undefined") ∧
    uploadLargeFileOnSuccess none hdrs = .error .uploadUrlNotSet := by
  constructor
  · unfold uploadLargeFileOnSuccess
    rw [hmiss]
    rfl
  · rfl

theorem onSuccess_behavior_witness :
    uploadLargeFileOnSuccess (some "u") [] = .ok (uriSkynetPrefix ++ "undefined") :=
  (onSuccess_behavior "u" [] (by rfl)).1

/-- Modelled from the spec: `validateInteger` from `utils_validation.js` (not
among the sources) fails with `InvalidArgument` unless the value is an
integer. -/
def validateInteger (name : String) (value : Rat) : Except SkynetError Unit :=
  if value.isInt then .ok () else .error (validationError name)

/-- The staggerPercent range check of `src/upload.js` lines 72-78
(`undefined` and `null` are `none`, and pass). -/
def staggerPercentInvalid : Option Rat → Bool
  | none => false
  | some sp => decide (sp < 0) || decide (100 < sp)

/-- The eager option-validation phase of `uploadLargeFile` (`src/upload.js`
lines 70-87), in source order: staggerPercent range, chunkSizeMultiplier
lower bound, chunkSizeMultiplier integrality, numParallelUploads lower bound,
numParallelUploads integrality. -/
def uploadLargeFileValidation (staggerPercent : Option Rat)
    (chunkSizeMultiplier numParallelUploads : Rat) : Except SkynetError Unit :=
  if staggerPercentInvalid staggerPercent then .error (.invalidArgument "staggerPercent")
  else if chunkSizeMultiplier < 1 then .error (validationError "opts.chunkSizeMultiplier")
  else
    match validateInteger "opts.chunkSizeMultiplier" chunkSizeMultiplier with
    | .error e => .error e
    | .ok _ =>
      if numParallelUploads < 1 then .error (validationError "opts.numParallelUploads")
      else validateInteger "opts.numParallelUploads" numParallelUploads

/-- The tus session configuration assembled by `uploadLargeFile`
(`src/upload.js` lines 120-133) before the upload is started. -/
structure TusConfig where
  chunkSize : Nat
  parallelUploads : Nat
  hasSplitSizeIntoParts : Bool
  staggerPercent : Option Rat
  deriving DecidableEq

/-- The pre-network phase of `uploadLargeFile` (`src/upload.js` lines 70-133):
eager option validation, then assembly of the tus session configuration
(effective chunk size, clamped parallelism, and whether a
`splitSizeIntoParts` closure and a stagger percentage are installed).  A
`.ok` result is the configuration with which the tus `Upload` is started; a
`.error` result means the function throws before any upload session is
constructed or network request issued. -/
def uploadLargeFileSetup (filesize baseChunkSize : Nat) (staggerPercent : Option Rat)
    (chunkSizeMultiplier numParallelUploads : Rat) : Except SkynetError TusConfig :=
  match uploadLargeFileValidation staggerPercent chunkSizeMultiplier numParallelUploads with
  | .error e => .error e
  | .ok _ =>
    .ok { chunkSize := baseChunkSize * chunkSizeMultiplier.num.toNat
          parallelUploads :=
            clampedParallelUploads filesize baseChunkSize numParallelUploads.num.toNat
          hasSplitSizeIntoParts := decide
            (1 < clampedParallelUploads filesize baseChunkSize numParallelUploads.num.toNat)
          staggerPercent :=
            if 1 < clampedParallelUploads filesize baseChunkSize numParallelUploads.num.toNat
            then staggerPercent else none }

/-- Whether a result is an `InvalidArgument` failure. -/
def isInvalidArgument {a : Type} : Except SkynetError a → Bool
  | .error (.invalidArgument _) => true
  | _ => false

/-- C8: option validation happens eagerly, before any upload session exists:
whenever `chunkSizeMultiplier < 1` or non-integral, or
`numParallelUploads < 1` or non-integral, or `staggerPercent` is present and
outside `[0, 100]`, the pre-network phase of `uploadLargeFile` fails with an
`InvalidArgument` error, so no session configuration is produced and no
request is issued. -/
theorem uploadLargeFile_validates_eagerly
    (filesize baseChunkSize : Nat) (staggerPercent : Option Rat)
    (chunkSizeMultiplier numParallelUploads : Rat)
    (hbad : chunkSizeMultiplier < 1 ∨ chunkSizeMultiplier.isInt = false ∨
      numParallelUploads < 1 ∨ numParallelUploads.isInt = false ∨
      staggerPercentInvalid staggerPercent = true) :
    isInvalidArgument (uploadLargeFileSetup filesize baseChunkSize staggerPercent
      chunkSizeMultiplier numParallelUploads) = true ∧
    (uploadLargeFileSetup filesize baseChunkSize staggerPercent
      chunkSizeMultiplier numParallelUploads).isOk = false := by
  have hval : ∃ name, uploadLargeFileValidation staggerPercent chunkSizeMultiplier
      numParallelUploads = .error (.invalidArgument name) := by
    unfold uploadLargeFileValidation validateInteger
    by_cases h1 : staggerPercentInvalid staggerPercent = true
    · exact ⟨"staggerPercent", by rw [if_pos h1]⟩
    · rw [if_neg h1]
      by_cases h2 : chunkSizeMultiplier < 1
      · exact ⟨"opts.chunkSizeMultiplier", by rw [if_pos h2]; rfl⟩
      · rw [if_neg h2]
        by_cases h3 : chunkSizeMultiplier.isInt = true
        · rw [if_pos h3]
          by_cases h4 : numParallelUploads < 1
          · exact ⟨"opts.numParallelUploads", by rw [if_pos h4]; rfl⟩
          · rw [if_neg h4]
            by_cases h5 : numParallelUploads.isInt = true
            · exfalso
              rcases hbad with h | h | h | h | h
              · exact h2 h
              · rw [h3] at h; exact Bool.noConfusion h
              · exact h4 h
              · rw [h5] at h; exact Bool.noConfusion h
              · exact h1 h
            · refine ⟨"opts.numParallelUploads", ?_⟩
              rw [if_neg h5]
              rfl
        · refine ⟨"opts.chunkSizeMultiplier", ?_⟩
          rw [if_neg h3]
          rfl
  obtain ⟨name, hval⟩ := hval
  unfold uploadLargeFileSetup
  rw [hval]
  exact ⟨rfl, rfl⟩

theorem uploadLargeFile_validates_eagerly_witness :
    isInvalidArgument (uploadLargeFileSetup 100 1 none 0 1) = true ∧
    (uploadLargeFileSetup 100 1 none 0 1).isOk = false :=
  uploadLargeFile_validates_eagerly 100 1 none 0 1 (Or.inl (by norm_num))

/-- The upload strategies of the specification. -/
inductive UploadStrategy where
  | smallFile
  | largeFile
  deriving DecidableEq

/-- The strategy dispatch shared by `uploadData` and `uploadFile`
(`src/upload.js` lines 27-30 and 41-44): the small-file path is taken iff
`sizeInBytes < opts.largeFileSize`. -/
def selectUploadStrategy (sizeInBytes largeFileSize : Nat) : UploadStrategy :=
  if sizeInBytes < largeFileSize then .smallFile else .largeFile

/-- C9: strategy selection is exactly the threshold comparison
`sizeInBytes < largeFileSize`; equality routes to the large-file path and one
byte less routes to the small-file path. -/
theorem uploadStrategy_threshold (sizeInBytes largeFileSize : Nat) :
    (selectUploadStrategy sizeInBytes largeFileSize = .smallFile ↔
      sizeInBytes < largeFileSize) ∧
    selectUploadStrategy largeFileSize largeFileSize = .largeFile ∧
    (1 ≤ largeFileSize →
      selectUploadStrategy (largeFileSize - 1) largeFileSize = .smallFile) := by
  refine ⟨?_, ?_, ?_⟩
  · unfold selectUploadStrategy
    by_cases h : sizeInBytes < largeFileSize
    · simp [h]
    · simp [h]
  · unfold selectUploadStrategy
    simp
  · intro h
    unfold selectUploadStrategy
    rw [if_pos (by omega)]

theorem uploadStrategy_threshold_witness :
    selectUploadStrategy 4 5 = UploadStrategy.smallFile :=
  (uploadStrategy_threshold 0 5).2.2 (by decide)

/-- Modelled from the spec: `formatSkylink` from `utils.js` (not among the
sources) strips any recognized URI scheme prefix from its input, yielding the
bare encoded form. -/
def formatSkylink (skylink : String) : String :=
  match skylink.data with
  | 's' :: 'i' :: 'a' :: ':' :: '/' :: '/' :: rest => String.mk rest
  | _ => skylink

/-- Whether a string carries the URI scheme prefix. -/
def hasSkynetUriScheme (s : String) : Bool :=
  match s.data with
  | 's' :: 'i' :: 'a' :: ':' :: '/' :: '/' :: _ => true
  | _ => false

/-- The value returned by `uploadSmallFile` (`src/upload.js` lines 63-67) as
a function of the `skylink` field of the response body. -/
def uploadSmallFileResult (responseSkylink : String) : String :=
  formatSkylink responseSkylink

example : uploadSmallFileResult "sia://abc" = "abc" := by rfl
example : uploadSmallFileResult "abc" = "abc" := by rfl

/-- C10: the two upload paths return the identifier in different formats: the
small-file path returns the bare (prefix-stripped) encoded skylink from the
response body, while the large-file path resolves with the `sia://` URI
prefix prepended to the skylink taken from the probe response header. -/
theorem uploadPaths_identifier_format (s hdr u : String)
    (hdrs : List (String × String))
    (hbare : hasSkynetUriScheme s = false)
    (hhdr : lookupHeader hdrs "skynet-skylink" = some hdr) :
    uploadSmallFileResult s = s ∧
    uploadSmallFileResult (uriSkynetPrefix ++ s) = s ∧
    hasSkynetUriScheme (uploadSmallFileResult (uriSkynetPrefix ++ s)) = false ∧
    uploadLargeFileOnSuccess (some u) hdrs = .ok (uriSkynetPrefix ++ hdr) := by
  have hdata : (uriSkynetPrefix ++ s).data
      = 's' :: 'i' :: 'a' :: ':' :: '/' :: '/' :: s.data := by
    rw [String.data_append]
    rfl
  have hstrip : uploadSmallFileResult (uriSkynetPrefix ++ s) = s := by
    unfold uploadSmallFileResult formatSkylink
    rw [hdata]
    rfl
  refine ⟨?_, hstrip, ?_, ?_⟩
  · unfold uploadSmallFileResult formatSkylink
    unfold hasSkynetUriScheme at hbare
    split
    · rename_i rest heq
      rw [heq] at hbare
      exact absurd hbare (by simp)
    · rfl
  · rw [hstrip]
    exact hbare
  · unfold uploadLargeFileOnSuccess
    rw [hhdr]
    rfl

theorem uploadPaths_identifier_format_witness :
    uploadSmallFileResult "abc" = "abc" ∧
    uploadSmallFileResult (uriSkynetPrefix ++ "abc") = "abc" ∧
    hasSkynetUriScheme (uploadSmallFileResult (uriSkynetPrefix ++ "abc")) = false ∧
    uploadLargeFileOnSuccess (some "u") [("skynet-skylink", "XYZ")]
      = .ok (uriSkynetPrefix ++ "XYZ") :=
  uploadPaths_identifier_format "abc" "XYZ" "u" [("skynet-skylink", "XYZ")]
    (by rfl) (by rfl)

end NodejsSkynet
